import Mathlib

/-!
Shallow embedding of `src/core/swap/swap-api.js` (swap-quote aggregator):
option merging, provider filtering, quote comparison (`pickBestQuote`),
error ranking (`pickBestError`), quote normalization (`upgradeQuote`) and
the success-branch resource reclamation.

Native amounts are decimal strings of non-negative integers in the source
(biggystring); they are embedded as `Nat`.  `biggystring.div` with its
default precision of 0 is integer division, embedded as `Nat.div`
(biggystring throws on a zero divisor, so theorems touching rates carry a
positivity hypothesis where needed).  JS `undefined`/absent fields are
`Option`; JS maps (plain objects) are association lists with unique keys.
-/

namespace SwapApi

/-- A plugin map (JS object keyed by plugin id) as an association list. -/
abbrev PluginMap (V : Type) : Type := List (String × V)

/-- JS property read `m[k]`: first binding wins (keys are unique in JS objects). -/
def lookupId {V : Type} : PluginMap V → String → Option V
  | [], _ => none
  | (k2, v) :: rest, k => if k2 = k then some v else lookupId rest k

/-- JS property write `m[k] = v`: overwrite in place or append. -/
def setKey {V : Type} : PluginMap V → String → V → PluginMap V
  | [], k, v => [(k, v)]
  | (k2, v2) :: rest, k, v =>
    if k2 = k then (k, v) :: rest else (k2, v2) :: setKey rest k v

/-- An `EdgeSwapPluginQuote` as consumed by `pickBestQuote` / `upgradeQuote`:
`pluginName` is the legacy id (always present), `pluginId` the modern one
(optional), amounts are native integer amounts, `isEstimate` and `quoteId`
are optional. -/
structure SwapQuote where
  pluginName : String
  pluginId : Option String
  toNativeAmount : Nat
  fromNativeAmount : Nat
  isEstimate : Option Bool
  quoteId : Option String
  deriving DecidableEq, Repr

/-- The body of the `quotes.reduce((a, b) => ...)` callback in `pickBestQuote`:
preferred-plugin check, promo-code check, estimate check, then rate
comparison via `div` (default precision 0, i.e. integer division). -/
def pickPair (preferPluginId : Option String) (promoCodes : PluginMap String)
    (a b : SwapQuote) : SwapQuote :=
  if some a.pluginName = preferPluginId then a
  else if some b.pluginName = preferPluginId then b
  else
    let aHasPromo := (lookupId promoCodes a.pluginName).isSome
    let bHasPromo := (lookupId promoCodes b.pluginName).isSome
    if aHasPromo && !bHasPromo then b
    else if !aHasPromo && bHasPromo then a
    else
      let aIsEstimate := a.isEstimate.getD true
      let bIsEstimate := b.isEstimate.getD true
      if aIsEstimate && !bIsEstimate then b
      else if !aIsEstimate && bIsEstimate then a
      else
        let aRate := a.toNativeAmount / a.fromNativeAmount
        let bRate := b.toNativeAmount / b.fromNativeAmount
        if bRate > aRate then b else a

/-- The function `pickBestQuote`: `quotes.reduce` with no initial value (`none` models the
TypeError JS throws on an empty array; the caller guarantees non-emptiness). -/
def pickBestQuote (quotes : List SwapQuote) (preferPluginId : Option String)
    (promoCodes : PluginMap String) : Option SwapQuote :=
  match quotes with
  | [] => none
  | q :: qs => some (qs.foldl (pickPair preferPluginId promoCodes) q)

/-- The distinguishable shapes of a provider failure, as inspected by
`rankError` / `pickBestError` through `error.name` and the amount fields
(`errorNames` lives in `types/types.js`; only the distinctness of its
entries matters here).  `other` is any unrecognized error object. -/
inductive SwapErr where
  | insufficientFunds
  | pendingFunds
  | belowLimit (nativeMin : Nat)
  | aboveLimit (nativeMax : Nat)
  | permission
  | currency
  | other (name : String)
  deriving DecidableEq, Repr

/-- A rejection reason as delivered to `pickBestError`: `none` is JS
`null`/`undefined` (handled explicitly by `rankError`). -/
abbrev JsErr : Type := Option SwapErr

/-- The function `rankError`: the static priority table. -/
def rankError : JsErr → Nat
  | none => 0
  | some .insufficientFunds => 6
  | some .pendingFunds => 6
  | some (.belowLimit _) => 5
  | some (.aboveLimit _) => 4
  | some .permission => 3
  | some .currency => 2
  | some (.other _) => 1

/-- The body of the `errors.reduce((a, b) => ...)` callback in
`pickBestError`.  After a rank tie the code reads `a.name`; when `a` is
`null` that read throws a TypeError, embedded as `Except.error ()`.
At an equal rank of 5 (resp. 4) both sides are necessarily
`SwapBelowLimitError` (resp. `SwapAboveLimitError`), so the amount reads
on `b` in those branches are safe. -/
def pickErrPair (a b : JsErr) : Except Unit JsErr :=
  if (rankError a : Int) - (rankError b : Int) > 0 then .ok a
  else if (rankError a : Int) - (rankError b : Int) < 0 then .ok b
  else
    match a, b with
    | none, _ => .error ()
    | some (.belowLimit amin), some (.belowLimit bmin) =>
      .ok (if amin < bmin then some (.belowLimit amin) else some (.belowLimit bmin))
    | some (.aboveLimit amax), some (.aboveLimit bmax) =>
      .ok (if amax > bmax then some (.aboveLimit amax) else some (.aboveLimit bmax))
    | some ea, _ => .ok (some ea)

/-- The running `reduce` over the error list, propagating a thrown
TypeError. -/
def reduceErrors (a : JsErr) : List JsErr → Except Unit JsErr
  | [] => .ok a
  | b :: bs =>
    match pickErrPair a b with
    | .error e => .error e
    | .ok c => reduceErrors c bs

/-- The function `pickBestError`: `errors.reduce` with no initial value (`none` models
the TypeError on an empty array; `fetchSwapQuote` only calls it with all
rejection reasons of a non-empty provider set). -/
def pickBestError (errors : List JsErr) : Option (Except Unit JsErr) :=
  match errors with
  | [] => none
  | e :: es => some (reduceErrors e es)

/-- The deprecated nested per-plugin options (`opts.plugins[id]`):
`disabled` is read for truthiness, `promoCode` for `!= null`. -/
structure LegacyPluginOpts where
  disabled : Bool
  promoCode : Option String
  deriving DecidableEq, Repr

/-- The `Upgrade deprecated options` loop of `fetchSwapQuote`: for each id
in `opts.plugins`, a truthy `disabled` sets `disabled[id] = true`, and a
non-null `promoCode` sets `promoCodes[id]`. -/
def mergeSwapOptions (disabled : PluginMap Bool) (promoCodes : PluginMap String)
    (plugins : List (String × LegacyPluginOpts)) : PluginMap Bool × PluginMap String :=
  plugins.foldl
    (fun maps entry =>
      let d := if entry.2.disabled then setKey maps.1 entry.1 true else maps.1
      let p :=
        match entry.2.promoCode with
        | some c => setKey maps.2 entry.1 c
        | none => maps.2
      (d, p))
    (disabled, promoCodes)

/-- Per-plugin account settings: `enabled` is absent (`none`) or a Bool. -/
structure SwapSettings where
  enabled : Option Bool
  deriving DecidableEq, Repr

/-- The read `const { enabled = true } = swapSettings[pluginId] != null ?
swapSettings[pluginId] : {}` — enabled defaults to true when the settings
entry or its `enabled` property is absent. -/
def effectiveEnabled (swapSettings : PluginMap SwapSettings) (pluginId : String) : Bool :=
  match lookupId swapSettings pluginId with
  | none => true
  | some s => s.enabled.getD true

/-- The ids whose fetch is started by the plugin loop: plugins are skipped
iff `!enabled || disabled[pluginId]` (truthy). -/
def activePluginIds (registryIds : List String) (swapSettings : PluginMap SwapSettings)
    (disabled : PluginMap Bool) : List String :=
  registryIds.filter
    (fun id => effectiveEnabled swapSettings id && !((lookupId disabled id).getD false))

/-- Outcome of the synchronous phase of `fetchSwapQuote`: either the throw
`new Error('No swap providers enabled')` before any network call, or the
list of plugin ids whose `fetchSwapQuote` was invoked (one promise each,
in registry order). -/
inductive FetchPhase where
  | noProvidersError
  | started (pluginIds : List String)
  deriving DecidableEq, Repr

/-- The provider fan-out of `fetchSwapQuote`: build the promise list, then
`if (promises.length < 1) throw`. -/
def startSwapFetches (registryIds : List String) (swapSettings : PluginMap SwapSettings)
    (disabled : PluginMap Bool) : FetchPhase :=
  let act := activePluginIds registryIds swapSettings disabled
  if act.length < 1 then .noProvidersError else .started act

/-- Static plugin metadata consulted by `upgradeQuote` (`swapInfo.quoteUri`). -/
structure SwapInfo where
  quoteUri : Option String
  deriving DecidableEq, Repr

/-- The public quote shape produced by `upgradeQuote`: `isEstimate` and
`pluginId` resolved, `quoteUri` computed. -/
structure PublicQuote where
  pluginName : String
  pluginId : String
  toNativeAmount : Nat
  fromNativeAmount : Nat
  isEstimate : Bool
  quoteId : Option String
  quoteUri : Option String
  deriving DecidableEq, Repr

/-- The function `upgradeQuote`: `isEstimate` defaults to true, `pluginId` falls back to
`pluginName`, and the plugin registry is indexed by the resolved id
(`none` models the TypeError when that plugin is absent). -/
def upgradeQuote (quote : SwapQuote) (swapInfos : PluginMap SwapInfo) : Option PublicQuote :=
  let isEstimate := quote.isEstimate.getD true
  let pluginId := quote.pluginId.getD quote.pluginName
  match lookupId swapInfos pluginId with
  | none => none
  | some swapInfo =>
    let quoteUri :=
      match quote.quoteId, swapInfo.quoteUri with
      | some qid, some base => some (base ++ qid)
      | _, _ => none
    some
      { pluginName := quote.pluginName, pluginId := pluginId,
        toNativeAmount := quote.toNativeAmount,
        fromNativeAmount := quote.fromNativeAmount,
        isEstimate := isEstimate, quoteId := quote.quoteId, quoteUri := quoteUri }

/-- The call `quote.close()` as seen by the success branch: each quote's close may
reject (`closeFails q = true`). -/
def jsClose (closeFails : SwapQuote → Bool) (q : SwapQuote) : Except Unit Unit :=
  if closeFails q then .error () else .ok ()

/-- The `Close unused quotes` loop: for each quote other than the winner
(reference inequality `quote !== bestQuote`), invoke `close()` and swallow
a rejection with `.catch(() => undefined)`. -/
def closeLosers (closeFails : SwapQuote → Bool) :
    List SwapQuote → SwapQuote → Except Unit Unit
  | [], _ => .ok ()
  | q :: rest, best =>
    match
      (if q ≠ best then
        match jsClose closeFails q with
        | .error _ => Except.ok ()
        | .ok u => Except.ok u
      else Except.ok ()) with
    | .error e => .error e
    | .ok _ => closeLosers closeFails rest best

/-- The quotes on which `close()` is invoked by the loop (reference
inequality against the winner). -/
def closedQuotes (quotes : List SwapQuote) (best : SwapQuote) : List SwapQuote :=
  quotes.filter (fun q => q ≠ best)

/-- The success branch of `fetchSwapQuote`: pick the best quote, close the
losers (rejections swallowed), return the winner. -/
def successBranch (quotes : List SwapQuote) (preferPluginId : Option String)
    (promoCodes : PluginMap String) (closeFails : SwapQuote → Bool) :
    Except Unit SwapQuote :=
  match pickBestQuote quotes preferPluginId promoCodes with
  | none => .error ()
  | some best =>
    match closeLosers closeFails quotes best with
    | .error e => .error e
    | .ok _ => .ok best

/-! ### The comparator as a key function

`pickPair` is winner-keeping with respect to a lexicographic key:
preferred beats everything (all preferred quotes tie), then the inverted
promo criterion (no promo code beats promo code, as the code is written),
then firmness, then the truncated rate.  Ties keep the left operand. -/

/-- The comparator key of a quote.  The second component is 0 when the
quote's `pluginName` has a promo code and 1 otherwise, mirroring the
inverted promo branch of the source. -/
def quoteKey (pref : Option String) (promos : PluginMap String) (q : SwapQuote) :
    Nat × Nat × Nat × Nat :=
  if some q.pluginName = pref then (1, 0, 0, 0)
  else
    (0, if (lookupId promos q.pluginName).isSome then 0 else 1,
      if q.isEstimate.getD true then 0 else 1,
      q.toNativeAmount / q.fromNativeAmount)

/-- Strict lexicographic order on comparator keys. -/
def keyLt (k1 k2 : Nat × Nat × Nat × Nat) : Prop :=
  k1.1 < k2.1 ∨ (k1.1 = k2.1 ∧ (k1.2.1 < k2.2.1 ∨ (k1.2.1 = k2.2.1 ∧
    (k1.2.2.1 < k2.2.2.1 ∨ (k1.2.2.1 = k2.2.2.1 ∧ k1.2.2.2 < k2.2.2.2)))))

instance (k1 k2 : Nat × Nat × Nat × Nat) : Decidable (keyLt k1 k2) := by
  unfold keyLt; infer_instance

theorem keyLt_irrefl (k : Nat × Nat × Nat × Nat) : ¬ keyLt k k := by
  obtain ⟨a, b, c, d⟩ := k
  simp only [keyLt]
  omega

theorem keyLt_total (k1 k2 : Nat × Nat × Nat × Nat) :
    keyLt k1 k2 ∨ k1 = k2 ∨ keyLt k2 k1 := by
  obtain ⟨a1, b1, c1, d1⟩ := k1
  obtain ⟨a2, b2, c2, d2⟩ := k2
  simp only [keyLt, Prod.mk.injEq]
  omega

theorem keyGe_trans {k1 k2 k3 : Nat × Nat × Nat × Nat}
    (h1 : ¬ keyLt k1 k2) (h2 : ¬ keyLt k2 k3) : ¬ keyLt k1 k3 := by
  obtain ⟨a1, b1, c1, d1⟩ := k1
  obtain ⟨a2, b2, c2, d2⟩ := k2
  obtain ⟨a3, b3, c3, d3⟩ := k3
  simp only [keyLt] at h1 h2 ⊢
  omega

theorem keyLt_antisymm {k1 k2 : Nat × Nat × Nat × Nat}
    (h1 : ¬ keyLt k1 k2) (h2 : ¬ keyLt k2 k1) : k1 = k2 := by
  obtain ⟨a1, b1, c1, d1⟩ := k1
  obtain ⟨a2, b2, c2, d2⟩ := k2
  simp only [keyLt] at h1 h2
  simp only [Prod.mk.injEq]
  omega

/-- The pairwise pick keeps the left operand unless the right operand's
key is strictly greater. -/
theorem pickPair_eq_key (pref : Option String) (promos : PluginMap String)
    (a b : SwapQuote) :
    pickPair pref promos a b =
      if keyLt (quoteKey pref promos a) (quoteKey pref promos b) then b else a := by
  unfold pickPair quoteKey
  by_cases hpa : some a.pluginName = pref
  · by_cases hpb : some b.pluginName = pref <;>
      simp [hpa, hpb, keyLt]
  · by_cases hpb : some b.pluginName = pref
    · simp [hpa, hpb, keyLt]
    · cases hma : (lookupId promos a.pluginName).isSome <;>
        cases hmb : (lookupId promos b.pluginName).isSome <;>
        cases hea : a.isEstimate.getD true <;>
        cases heb : b.isEstimate.getD true <;>
        simp [hpa, hpb, hma, hmb, hea, heb, keyLt]

theorem keyLt_asymm {k1 k2 : Nat × Nat × Nat × Nat} (h : keyLt k1 k2) :
    ¬ keyLt k2 k1 := by
  obtain ⟨a1, b1, c1, d1⟩ := k1
  obtain ⟨a2, b2, c2, d2⟩ := k2
  simp only [keyLt] at h ⊢
  omega

theorem pickPair_cases (pref : Option String) (promos : PluginMap String)
    (a b : SwapQuote) :
    pickPair pref promos a b = a ∨ pickPair pref promos a b = b := by
  rw [pickPair_eq_key]
  by_cases h : keyLt (quoteKey pref promos a) (quoteKey pref promos b) <;> simp [h]

theorem foldl_pickPair_mem (pref : Option String) (promos : PluginMap String)
    (l : List SwapQuote) (acc : SwapQuote) :
    l.foldl (pickPair pref promos) acc = acc ∨
      l.foldl (pickPair pref promos) acc ∈ l := by
  induction l generalizing acc with
  | nil => simp
  | cons b bs ih =>
    simp only [List.foldl_cons]
    rcases ih (pickPair pref promos acc b) with h | h
    · rw [h]
      rcases pickPair_cases pref promos acc b with h2 | h2
      · exact Or.inl h2
      · refine Or.inr ?_
        rw [h2]
        exact List.mem_cons_self b bs
    · exact Or.inr (List.mem_cons_of_mem b h)

theorem foldl_pickPair_max (pref : Option String) (promos : PluginMap String)
    (l : List SwapQuote) (acc : SwapQuote) :
    ¬ keyLt (quoteKey pref promos (l.foldl (pickPair pref promos) acc))
        (quoteKey pref promos acc) ∧
      ∀ x ∈ l,
        ¬ keyLt (quoteKey pref promos (l.foldl (pickPair pref promos) acc))
          (quoteKey pref promos x) := by
  induction l generalizing acc with
  | nil => exact ⟨keyLt_irrefl _, by simp⟩
  | cons b bs ih =>
    simp only [List.foldl_cons]
    obtain ⟨h1, h2⟩ := ih (pickPair pref promos acc b)
    by_cases hk : keyLt (quoteKey pref promos acc) (quoteKey pref promos b)
    · have hab : pickPair pref promos acc b = b := by
        rw [pickPair_eq_key, if_pos hk]
      rw [hab] at h1 h2 ⊢
      refine ⟨keyGe_trans h1 (keyLt_asymm hk), ?_⟩
      intro x hx
      rcases List.mem_cons.mp hx with h | h
      · exact h ▸ h1
      · exact h2 x h
    · have hab : pickPair pref promos acc b = acc := by
        rw [pickPair_eq_key, if_neg hk]
      rw [hab] at h1 h2 ⊢
      refine ⟨h1, ?_⟩
      intro x hx
      rcases List.mem_cons.mp hx with h | h
      · exact h ▸ keyGe_trans h1 hk
      · exact h2 x h

theorem pickBestQuote_mem {quotes : List SwapQuote} {pref : Option String}
    {promos : PluginMap String} {w : SwapQuote}
    (h : pickBestQuote quotes pref promos = some w) : w ∈ quotes := by
  cases quotes with
  | nil => simp [pickBestQuote] at h
  | cons q qs =>
    simp only [pickBestQuote, Option.some.injEq] at h
    rcases foldl_pickPair_mem pref promos qs q with h2 | h2
    · rw [← h, h2]
      exact List.mem_cons_self q qs
    · rw [← h]
      exact List.mem_cons_of_mem q h2

theorem pickBestQuote_max {quotes : List SwapQuote} {pref : Option String}
    {promos : PluginMap String} {w : SwapQuote}
    (h : pickBestQuote quotes pref promos = some w) :
    ∀ x ∈ quotes, ¬ keyLt (quoteKey pref promos w) (quoteKey pref promos x) := by
  cases quotes with
  | nil => simp [pickBestQuote] at h
  | cons q qs =>
    simp only [pickBestQuote, Option.some.injEq] at h
    obtain ⟨h1, h2⟩ := foldl_pickPair_max pref promos qs q
    intro x hx
    rcases List.mem_cons.mp hx with hh | hh
    · exact hh ▸ h ▸ h1
    · exact h ▸ h2 x hh

/-- In a pairwise pick with a designated preferred plugin, if either side
is from the preferred plugin then so is the result. -/
theorem pickPair_pref (pid : String) (promos : PluginMap String) (a b : SwapQuote)
    (h : a.pluginName = pid ∨ b.pluginName = pid) :
    (pickPair (some pid) promos a b).pluginName = pid := by
  unfold pickPair
  by_cases hpa : some a.pluginName = some pid
  · simpa [hpa] using Option.some.inj hpa
  · have hb : b.pluginName = pid := by
      rcases h with h | h
      · exact absurd (congrArg some h) hpa
      · exact h
    simp [hpa, hb]

theorem foldl_pickPair_pref (pid : String) (promos : PluginMap String)
    (l : List SwapQuote) (acc : SwapQuote)
    (h : acc.pluginName = pid ∨ ∃ q ∈ l, q.pluginName = pid) :
    (l.foldl (pickPair (some pid) promos) acc).pluginName = pid := by
  induction l generalizing acc with
  | nil =>
    rcases h with h | h
    · exact h
    · simp at h
  | cons b bs ih =>
    simp only [List.foldl_cons]
    rcases h with h | h
    · exact ih _ (Or.inl (pickPair_pref pid promos acc b (Or.inl h)))
    · rcases h with ⟨q, hq, hqp⟩
      rcases List.mem_cons.mp hq with hh | hh
      · exact ih _ (Or.inl (pickPair_pref pid promos acc b (Or.inr (hh ▸ hqp))))
      · exact ih _ (Or.inr ⟨q, hh, hqp⟩)

/-! ### Claim theorems -/

/-- C1: the claim says that between two non-preferred quotes of which
exactly one has an active promo code, `pickBestQuote` selects the promoted
quote.  The code does the opposite: at this input the quote from "x" has
the promo code, yet the quote from "y" is selected — the promo branch
returns the operand *without* the promo, contradicting the comment
"Prioritize providers with active promo codes" directly above it. -/
theorem C1_promo_branch_inverted :
    pickBestQuote
        [(⟨"x", none, 1, 1, some true, none⟩ : SwapQuote),
          ⟨"y", none, 10, 1, some true, none⟩]
        none [("x", "CODE")] =
      some ⟨"y", none, 10, 1, some true, none⟩ ∧
    (⟨"x", none, 1, 1, some true, none⟩ : SwapQuote) ≠
      ⟨"y", none, 10, 1, some true, none⟩ := by
  decide

/-- C3 counterexample: with no preference, no promos, both quotes firm,
the quote from "f" has the strictly higher effective rate (7/4 > 5/4,
i.e. 5·4 < 7·4 cross-multiplied), yet the quote from "e" is returned:
`div` with its default precision 0 truncates both rates to 1, and the tie
keeps the left operand. -/
theorem C3_counterexample_rate_truncation :
    pickBestQuote
        [(⟨"e", none, 5, 4, some false, none⟩ : SwapQuote),
          ⟨"f", none, 7, 4, some false, none⟩]
        none [] =
      some ⟨"e", none, 5, 4, some false, none⟩ ∧
    5 * 4 < 7 * 4 ∧
    (⟨"e", none, 5, 4, some false, none⟩ : SwapQuote) ≠
      ⟨"f", none, 7, 4, some false, none⟩ := by
  decide

/-- C3 (amended): when the final criterion is reached (neither quote
preferred, equal promo status, equal estimate status), the quote with the
strictly higher *integer-truncated* rate `⌊toAmount / fromAmount⌋` wins —
`div` is called with its default precision 0, not with full precision —
and when the truncated rates are equal (including when the exact rates
differ) the left operand is kept.  A strictly greater truncated rate does
imply a strictly greater exact rate, so the misranking is confined to
rates sharing the same integer part. -/
theorem C3_amended_truncated_rate (pref : Option String) (promos : PluginMap String)
    (a b : SwapQuote)
    (hpa : some a.pluginName ≠ pref) (hpb : some b.pluginName ≠ pref)
    (hpromo : (lookupId promos a.pluginName).isSome =
      (lookupId promos b.pluginName).isSome)
    (hest : a.isEstimate.getD true = b.isEstimate.getD true)
    (hposa : 0 < a.fromNativeAmount) (hposb : 0 < b.fromNativeAmount) :
    pickPair pref promos a b =
      (if a.toNativeAmount / a.fromNativeAmount <
          b.toNativeAmount / b.fromNativeAmount
        then b else a) ∧
    (a.toNativeAmount / a.fromNativeAmount <
        b.toNativeAmount / b.fromNativeAmount →
      a.toNativeAmount * b.fromNativeAmount <
        b.toNativeAmount * a.fromNativeAmount) := by
  constructor
  · rw [pickPair_eq_key]
    unfold quoteKey
    rw [if_neg hpa, if_neg hpb, hpromo, hest]
    simp [keyLt]
  · intro hlt
    have h1 : a.toNativeAmount <
        b.toNativeAmount / b.fromNativeAmount * a.fromNativeAmount :=
      (Nat.div_lt_iff_lt_mul hposa).mp hlt
    have h2 : b.toNativeAmount / b.fromNativeAmount * b.fromNativeAmount ≤
        b.toNativeAmount := Nat.div_mul_le_self _ _
    calc a.toNativeAmount * b.fromNativeAmount
        < b.toNativeAmount / b.fromNativeAmount * a.fromNativeAmount *
            b.fromNativeAmount := (mul_lt_mul_right hposb).mpr h1
      _ = b.toNativeAmount / b.fromNativeAmount * b.fromNativeAmount *
            a.fromNativeAmount := by ring
      _ ≤ b.toNativeAmount * a.fromNativeAmount := mul_le_mul_right' h2 _

theorem C3_amended_truncated_rate_witness :
    (some "a" ≠ (none : Option String)) ∧
    (some "b" ≠ (none : Option String)) ∧
    pickPair none [] (⟨"a", none, 20, 10, some false, none⟩ : SwapQuote)
        ⟨"b", none, 15, 10, some false, none⟩ =
      (if 20 / 10 < 15 / 10
        then (⟨"b", none, 15, 10, some false, none⟩ : SwapQuote)
        else ⟨"a", none, 20, 10, some false, none⟩) := by
  refine ⟨by decide, by decide, ?_⟩
  exact (C3_amended_truncated_rate none [] ⟨"a", none, 20, 10, some false, none⟩
    ⟨"b", none, 15, 10, some false, none⟩ (by decide) (by decide) (by decide)
    (by decide) (by decide) (by decide)).1

/-- C4 counterexample: two distinct quotes that tie under every criterion
(not preferred, no promos, both firm, equal truncated rate): the
left-to-right reduction keeps the first one, so swapping the order changes
the selected winner even though the lists are permutations. -/
theorem C4_counterexample_order_dependent :
    List.Perm
        [(⟨"a", none, 2, 1, some false, some "1"⟩ : SwapQuote),
          ⟨"b", none, 2, 1, some false, some "2"⟩]
        [(⟨"b", none, 2, 1, some false, some "2"⟩ : SwapQuote),
          ⟨"a", none, 2, 1, some false, some "1"⟩] ∧
    pickBestQuote
        [(⟨"a", none, 2, 1, some false, some "1"⟩ : SwapQuote),
          ⟨"b", none, 2, 1, some false, some "2"⟩] none [] ≠
      pickBestQuote
        [(⟨"b", none, 2, 1, some false, some "2"⟩ : SwapQuote),
          ⟨"a", none, 2, 1, some false, some "1"⟩] none [] := by
  exact ⟨List.Perm.swap _ _ _, by decide⟩

/-- C4 (amended): `pickBestQuote` is order-independent provided no two
distinct quotes in the list are equivalent under the comparator (same
comparator key: preferred status, promo status, estimate status and
truncated rate); when such ties exist the first maximal quote in list
order wins, so permuting tied quotes can change the winner. -/
theorem C4_amended_order_independent (pref : Option String)
    (promos : PluginMap String) (l l2 : List SwapQuote)
    (hperm : List.Perm l l2)
    (hpos : ∀ q ∈ l, 0 < q.fromNativeAmount)
    (hinj : ∀ p ∈ l, ∀ q ∈ l,
      quoteKey pref promos p = quoteKey pref promos q → p = q) :
    pickBestQuote l pref promos = pickBestQuote l2 pref promos := by
  cases l with
  | nil =>
    rw [hperm.symm.eq_nil]
  | cons a as =>
    cases l2 with
    | nil => exact absurd hperm.eq_nil (by simp)
    | cons b bs =>
      obtain ⟨w1, hw1⟩ : ∃ w, pickBestQuote (a :: as) pref promos = some w :=
        ⟨_, rfl⟩
      obtain ⟨w2, hw2⟩ : ∃ w, pickBestQuote (b :: bs) pref promos = some w :=
        ⟨_, rfl⟩
      rw [hw1, hw2]
      have hm1 : w1 ∈ a :: as := pickBestQuote_mem hw1
      have hm2 : w2 ∈ b :: bs := pickBestQuote_mem hw2
      have hm2b : w2 ∈ a :: as := hperm.symm.subset hm2
      have hm1b : w1 ∈ b :: bs := hperm.subset hm1
      have hmax1 := pickBestQuote_max hw1 w2 hm2b
      have hmax2 := pickBestQuote_max hw2 w1 hm1b
      exact congrArg some (hinj w1 hm1 w2 hm2b (keyLt_antisymm hmax1 hmax2))

theorem C4_amended_order_independent_witness :
    List.Perm
        [(⟨"a", none, 2, 1, some false, none⟩ : SwapQuote),
          ⟨"b", none, 3, 1, some false, none⟩]
        [(⟨"b", none, 3, 1, some false, none⟩ : SwapQuote),
          ⟨"a", none, 2, 1, some false, none⟩] ∧
    pickBestQuote
        [(⟨"a", none, 2, 1, some false, none⟩ : SwapQuote),
          ⟨"b", none, 3, 1, some false, none⟩] none [] =
      pickBestQuote
        [(⟨"b", none, 3, 1, some false, none⟩ : SwapQuote),
          ⟨"a", none, 2, 1, some false, none⟩] none [] := by
  refine ⟨List.Perm.swap _ _ _, ?_⟩
  exact C4_amended_order_independent none []
    [⟨"a", none, 2, 1, some false, none⟩, ⟨"b", none, 3, 1, some false, none⟩]
    [⟨"b", none, 3, 1, some false, none⟩, ⟨"a", none, 2, 1, some false, none⟩]
    (List.Perm.swap _ _ _) (by decide) (by decide)

/-- C8: whenever the list of successful quotes contains a quote from the
designated preferred provider, `pickBestQuote` returns a quote from that
provider, regardless of every other quote's rate, estimate status or
promo code.  (Positivity of the denominators keeps the embedding on the
domain where biggystring division does not throw.) -/
theorem C8_preferred_provider_wins (quotes : List SwapQuote) (pid : String)
    (promoCodes : PluginMap String)
    (hpos : ∀ q ∈ quotes, 0 < q.fromNativeAmount)
    (hex : ∃ q ∈ quotes, q.pluginName = pid) :
    ∃ w, pickBestQuote quotes (some pid) promoCodes = some w ∧
      w.pluginName = pid := by
  cases quotes with
  | nil => simp at hex
  | cons q qs =>
    refine ⟨qs.foldl (pickPair (some pid) promoCodes) q, rfl, ?_⟩
    apply foldl_pickPair_pref
    rcases hex with ⟨r, hr, hrp⟩
    rcases List.mem_cons.mp hr with hh | hh
    · exact Or.inl (hh ▸ hrp)
    · exact Or.inr ⟨r, hh, hrp⟩

theorem C8_preferred_provider_wins_witness :
    (∀ q ∈ [(⟨"a", none, 9, 1, some false, none⟩ : SwapQuote),
        ⟨"p", none, 1, 1, some true, none⟩], 0 < q.fromNativeAmount) ∧
    (∃ q ∈ [(⟨"a", none, 9, 1, some false, none⟩ : SwapQuote),
        ⟨"p", none, 1, 1, some true, none⟩], q.pluginName = "p") ∧
    ∃ w, pickBestQuote
        [(⟨"a", none, 9, 1, some false, none⟩ : SwapQuote),
          ⟨"p", none, 1, 1, some true, none⟩] (some "p") [] = some w ∧
      w.pluginName = "p" := by
  refine ⟨by decide, by decide, ?_⟩
  exact C8_preferred_provider_wins
    [⟨"a", none, 9, 1, some false, none⟩, ⟨"p", none, 1, 1, some true, none⟩]
    "p" [] (by decide) (by decide)

/-! ### Error-ranker lemmas -/

theorem rankError_eq_zero {x : JsErr} : rankError x = 0 ↔ x = none := by
  cases x with
  | none => simp [rankError]
  | some e => cases e <;> simp [rankError]

theorem rankError_pos {x : JsErr} (h : x ≠ none) : 1 ≤ rankError x := by
  cases x with
  | none => exact absurd rfl h
  | some e => cases e <;> simp [rankError]

/-- Whenever the error reducer step returns (does not throw), it returns
one of its operands, of rank at least both operands' ranks, and never a
null error. -/
theorem pickErrPair_ok_spec {a b c : JsErr} (h : pickErrPair a b = Except.ok c) :
    (c = a ∨ c = b) ∧ rankError a ≤ rankError c ∧ rankError b ≤ rankError c ∧
      c ≠ none := by
  unfold pickErrPair at h
  split_ifs at h with h1 h2
  · have hc : c = a := (Except.ok.inj h).symm
    subst hc
    refine ⟨Or.inl rfl, le_refl _, by omega, ?_⟩
    intro hn
    rw [hn] at h1
    simp [rankError] at h1
    omega
  · have hc : c = b := (Except.ok.inj h).symm
    subst hc
    refine ⟨Or.inr rfl, by omega, le_refl _, ?_⟩
    intro hn
    rw [hn] at h2
    simp [rankError] at h2
    omega
  · have heq : rankError a = rankError b := by omega
    rcases a with _ | ea
    · simp at h
    · rcases b with _ | eb
      · cases ea <;> simp [rankError] at heq
      · cases ea <;> cases eb <;> simp [rankError] at heq <;>
          simp only [] at h <;>
          (first
            | (simp only [Except.ok.injEq] at h
               split_ifs at h <;> subst h <;> simp [rankError])
            | (simp only [Except.ok.injEq] at h
               subst h
               simp [rankError]))

/-- Whenever the left operand is not null, the error reducer step does not
throw. -/
theorem pickErrPair_total (a b : JsErr) (ha : a ≠ none) :
    ∃ c, pickErrPair a b = Except.ok c := by
  unfold pickErrPair
  split_ifs with h1 h2
  · exact ⟨a, rfl⟩
  · exact ⟨b, rfl⟩
  · rcases a with _ | ea
    · exact absurd rfl ha
    · rcases b with _ | eb
      · cases ea <;> exact ⟨_, rfl⟩
      · cases ea <;> cases eb <;> exact ⟨_, rfl⟩

/-- Running the error reduction from a non-null accumulator returns an
element of maximal rank among the accumulator and the remaining list. -/
theorem reduceErrors_ok (es : List JsErr) (a : JsErr) (ha : a ≠ none) :
    ∃ w, reduceErrors a es = Except.ok w ∧ (w = a ∨ w ∈ es) ∧
      rankError a ≤ rankError w ∧ (∀ x ∈ es, rankError x ≤ rankError w) ∧
      w ≠ none := by
  induction es generalizing a with
  | nil => exact ⟨a, rfl, Or.inl rfl, le_refl _, by simp, ha⟩
  | cons b bs ih =>
    obtain ⟨c, hc⟩ := pickErrPair_total a b ha
    obtain ⟨hsides, hra, hrb, hcn⟩ := pickErrPair_ok_spec hc
    obtain ⟨w, hw, hwsides, hwr, hwall, hwn⟩ := ih c hcn
    refine ⟨w, ?_, ?_, le_trans hra hwr, ?_, hwn⟩
    · simp only [reduceErrors, hc]
      exact hw
    · rcases hwsides with h | h
      · rcases hsides with h2 | h2
        · exact Or.inl (h.trans h2)
        · exact Or.inr (by rw [h, h2]; exact List.mem_cons_self b bs)
      · exact Or.inr (List.mem_cons_of_mem b h)
    · intro x hx
      rcases List.mem_cons.mp hx with h | h
      · exact h ▸ le_trans hrb hwr
      · exact hwall x h

/-- C5 counterexample: on the failure list `[null, null]` (both ranks 0,
a tie) the reducer reads `a.name` on a null operand and throws a
TypeError instead of returning a maximal-rank element with the left
operand kept, so the claim as stated fails on that input. -/
theorem C5_counterexample_null_pair :
    pickBestError [none, none] = some (Except.error ()) := rfl

/-- C5 (amended): unless the failure list begins with two null entries
(where the tie-break reads `.name` of null and throws a TypeError),
`pickBestError` returns a single error of maximal rank from the list
under the table InsufficientFunds = PendingFunds = 6, BelowLimit = 5,
AboveLimit = 4, PermissionDenied = 3, UnsupportedPair = 2,
unrecognized = 1, null = 0; pairwise, equally ranked BelowLimit failures
keep the smaller `min` (ties to the right), equally ranked AboveLimit
failures keep the larger `max` (ties to the right), and any other tie
keeps the left operand. -/
theorem C5_amended_best_error (e : JsErr) (es : List JsErr)
    (hno2 : ¬ (e = none ∧ es.head? = some none)) :
    (∃ w, pickBestError (e :: es) = some (Except.ok w) ∧ w ∈ e :: es ∧
      ∀ x ∈ e :: es, rankError x ≤ rankError w) ∧
    (∀ m1 m2 : Nat,
      pickErrPair (some (.belowLimit m1)) (some (.belowLimit m2)) =
        Except.ok (some (.belowLimit (if m1 < m2 then m1 else m2)))) ∧
    (∀ m1 m2 : Nat,
      pickErrPair (some (.aboveLimit m1)) (some (.aboveLimit m2)) =
        Except.ok (some (.aboveLimit (if m2 < m1 then m1 else m2)))) ∧
    (∀ ea : SwapErr, ∀ b : JsErr, rankError (some ea) = rankError b →
      (∀ m, ea ≠ .belowLimit m) → (∀ m, ea ≠ .aboveLimit m) →
      pickErrPair (some ea) b = Except.ok (some ea)) := by
  refine ⟨?_, ?_, ?_, ?_⟩
  · rcases e with _ | ee
    · cases es with
      | nil => exact ⟨none, rfl, List.mem_singleton_self none, by simp⟩
      | cons b bs =>
        have hb : b ≠ none := by
          intro hbn
          exact hno2 ⟨rfl, by rw [hbn]; rfl⟩
        have h1 : 1 ≤ rankError b := rankError_pos hb
        have hstep : pickErrPair none b = Except.ok b := by
          unfold pickErrPair
          have hr0 : rankError (none : JsErr) = 0 := rfl
          have hc1 : ¬ ((rankError (none : JsErr) : Int) -
              (rankError b : Int) > 0) := by
            rw [hr0]
            omega
          have hc2 : ((rankError (none : JsErr) : Int) -
              (rankError b : Int) < 0) := by
            rw [hr0]
            omega
          rw [if_neg hc1, if_pos hc2]
        obtain ⟨w, hw, hsides, hrb, hall, hwn⟩ := reduceErrors_ok bs b hb
        refine ⟨w, ?_, ?_, ?_⟩
        · simp only [pickBestError, reduceErrors, hstep]
          rw [hw]
        · rcases hsides with h | h
          · rw [h]
            exact List.mem_cons_of_mem none (List.mem_cons_self b bs)
          · exact List.mem_cons_of_mem none (List.mem_cons_of_mem b h)
        · intro x hx
          rcases List.mem_cons.mp hx with h | h
          · rw [h]
            simp only [rankError]
            exact Nat.zero_le _
          · rcases List.mem_cons.mp h with h2 | h2
            · exact h2 ▸ hrb
            · exact hall x h2
    · obtain ⟨w, hw, hsides, hre, hall, hwn⟩ :=
        reduceErrors_ok es (some ee) (by simp)
      refine ⟨w, ?_, ?_, ?_⟩
      · simp only [pickBestError]
        rw [hw]
      · rcases hsides with h | h
        · rw [h]
          exact List.mem_cons_self _ es
        · exact List.mem_cons_of_mem _ h
      · intro x hx
        rcases List.mem_cons.mp hx with h | h
        · exact h ▸ hre
        · exact hall x h
  · intro m1 m2
    unfold pickErrPair
    rw [if_neg (by simp [rankError]), if_neg (by simp [rankError])]
    by_cases h : m1 < m2 <;> simp [h]
  · intro m1 m2
    unfold pickErrPair
    rw [if_neg (by simp [rankError]), if_neg (by simp [rankError])]
    by_cases h : m2 < m1 <;> simp [h]
  · intro ea b heq hbl hab
    have hz : ¬ ((rankError (some ea) : Int) - (rankError b : Int) > 0) := by
      omega
    have hz2 : ¬ ((rankError (some ea) : Int) - (rankError b : Int) < 0) := by
      omega
    unfold pickErrPair
    rw [if_neg hz, if_neg hz2]
    rcases b with _ | eb
    · cases ea <;>
        first
        | exact absurd rfl (hbl _)
        | exact absurd rfl (hab _)
        | rfl
    · cases ea <;> cases eb <;>
        first
        | exact absurd rfl (hbl _)
        | exact absurd rfl (hab _)
        | rfl

theorem C5_amended_best_error_witness :
    ¬ ((some SwapErr.currency : JsErr) = none ∧
      ([some SwapErr.insufficientFunds] : List JsErr).head? = some none) ∧
    (∃ w, pickBestError [some SwapErr.currency, some SwapErr.insufficientFunds] =
        some (Except.ok w) ∧
      w ∈ [some SwapErr.currency, some SwapErr.insufficientFunds] ∧
      ∀ x ∈ [(some SwapErr.currency : JsErr), some SwapErr.insufficientFunds],
        rankError x ≤ rankError w) := by
  refine ⟨by decide, ?_⟩
  exact (C5_amended_best_error (some .currency) [some .insufficientFunds]
    (by decide)).1

/-! ### Option-merge lemmas -/

theorem lookupId_setKey_self {V : Type} (m : PluginMap V) (k : String) (v : V) :
    lookupId (setKey m k v) k = some v := by
  induction m with
  | nil => simp [setKey, lookupId]
  | cons kv rest ih =>
    obtain ⟨k2, v2⟩ := kv
    by_cases h : k2 = k <;> simp [setKey, lookupId, h, ih]

theorem lookupId_setKey_ne {V : Type} (m : PluginMap V) (k k2 : String) (v : V)
    (h : k ≠ k2) : lookupId (setKey m k v) k2 = lookupId m k2 := by
  induction m with
  | nil => simp [setKey, lookupId, h]
  | cons kv rest ih =>
    obtain ⟨k3, v3⟩ := kv
    by_cases h3 : k3 = k
    · subst h3
      simp [setKey, lookupId, h]
    · simp [setKey, lookupId, h3, ih]

theorem mergeSwapOptions_cons (d : PluginMap Bool) (p : PluginMap String)
    (id : String) (o : LegacyPluginOpts) (rest : List (String × LegacyPluginOpts)) :
    mergeSwapOptions d p ((id, o) :: rest) =
      mergeSwapOptions (if o.disabled then setKey d id true else d)
        (match o.promoCode with
          | some c => setKey p id c
          | none => p)
        rest := rfl

/-- Ids not named by any deprecated entry are untouched in both maps. -/
theorem mergeSwapOptions_frame (plugins : List (String × LegacyPluginOpts))
    (d : PluginMap Bool) (p : PluginMap String) (id : String)
    (hid : id ∉ plugins.map Prod.fst) :
    lookupId (mergeSwapOptions d p plugins).1 id = lookupId d id ∧
      lookupId (mergeSwapOptions d p plugins).2 id = lookupId p id := by
  induction plugins generalizing d p with
  | nil => exact ⟨rfl, rfl⟩
  | cons entry rest ih =>
    obtain ⟨i, o⟩ := entry
    have hne : i ≠ id := by
      intro h
      exact hid (by simp [h])
    have hrest : id ∉ rest.map Prod.fst := by
      intro h
      exact hid (List.mem_cons_of_mem _ h)
    rw [mergeSwapOptions_cons]
    obtain ⟨h1, h2⟩ := ih _ _ hrest
    refine ⟨?_, ?_⟩
    · rw [h1]
      cases ho : o.disabled <;> simp [lookupId_setKey_ne _ _ _ _ hne]
    · rw [h2]
      cases ho : o.promoCode <;> simp [lookupId_setKey_ne _ _ _ _ hne]

/-- A disabled flag already present is never cleared by the merge. -/
theorem mergeSwapOptions_disabled_persists
    (plugins : List (String × LegacyPluginOpts)) (d : PluginMap Bool)
    (p : PluginMap String) (id : String) (h : lookupId d id = some true) :
    lookupId (mergeSwapOptions d p plugins).1 id = some true := by
  induction plugins generalizing d p with
  | nil => exact h
  | cons entry rest ih =>
    obtain ⟨i, o⟩ := entry
    rw [mergeSwapOptions_cons]
    apply ih
    cases ho : o.disabled
    · simpa using h
    · by_cases hi : i = id
      · subst hi
        simp [lookupId_setKey_self]
      · simpa [lookupId_setKey_ne _ _ _ _ hi] using h

/-- A promo code already present keeps some value through the merge. -/
theorem mergeSwapOptions_promo_isSome_persists
    (plugins : List (String × LegacyPluginOpts)) (d : PluginMap Bool)
    (p : PluginMap String) (id : String) (h : (lookupId p id).isSome) :
    (lookupId (mergeSwapOptions d p plugins).2 id).isSome := by
  induction plugins generalizing d p with
  | nil => exact h
  | cons entry rest ih =>
    obtain ⟨i, o⟩ := entry
    rw [mergeSwapOptions_cons]
    apply ih
    cases ho : o.promoCode with
    | none => simpa using h
    | some c =>
      by_cases hi : i = id
      · subst hi
        simp [lookupId_setKey_self]
      · simpa [lookupId_setKey_ne _ _ _ _ hi] using h

/-- C2 counterexample: a promo code already present in the flat
`promoCodes` map ("FLAT" for id "x") *is* overwritten when the deprecated
nested entry for the same id carries a promo code ("LEGACY"):
`promoCodes[id] = opts.plugins[id].promoCode` replaces the existing value,
contradicting the claim's "never overwriting ... an entry already present
in the flat promoCodes map". -/
theorem C2_counterexample_promo_overwritten :
    lookupId
        (mergeSwapOptions [] [("x", "FLAT")]
          [("x", ⟨false, some "LEGACY"⟩)]).2 "x" = some "LEGACY" ∧
    ("LEGACY" : String) ≠ "FLAT" := by
  constructor
  · rfl
  · decide

/-- C2 (amended): merging the deprecated nested options sets
`disabled[id] = true` for every entry whose disabled flag is true and
`promoCodes[id]` for every entry with a promo code — the latter
*overwriting* any flat promo code already present for that id; it never
clears an existing `disabled[id] = true`, never removes a promo entry
(an id with a promo code before the merge still has one after), leaves
every id not named by the deprecated map untouched, and has no effect
beyond producing the two maps. -/
theorem C2_amended_merge_options (d : PluginMap Bool) (p : PluginMap String)
    (plugins : List (String × LegacyPluginOpts))
    (hnd : (plugins.map Prod.fst).Nodup) :
    (∀ id o, (id, o) ∈ plugins → o.disabled = true →
      lookupId (mergeSwapOptions d p plugins).1 id = some true) ∧
    (∀ id, lookupId d id = some true →
      lookupId (mergeSwapOptions d p plugins).1 id = some true) ∧
    (∀ id o c, (id, o) ∈ plugins → o.promoCode = some c →
      lookupId (mergeSwapOptions d p plugins).2 id = some c) ∧
    (∀ id, (lookupId p id).isSome →
      (lookupId (mergeSwapOptions d p plugins).2 id).isSome) ∧
    (∀ id, id ∉ plugins.map Prod.fst →
      lookupId (mergeSwapOptions d p plugins).1 id = lookupId d id ∧
      lookupId (mergeSwapOptions d p plugins).2 id = lookupId p id) := by
  refine ⟨?_, fun id h => mergeSwapOptions_disabled_persists plugins d p id h,
    ?_, fun id h => mergeSwapOptions_promo_isSome_persists plugins d p id h,
    fun id h => mergeSwapOptions_frame plugins d p id h⟩
  · intro id o hmem ho
    induction plugins generalizing d p with
    | nil => simp at hmem
    | cons entry rest ih =>
      obtain ⟨i, oi⟩ := entry
      rw [mergeSwapOptions_cons]
      rcases List.mem_cons.mp hmem with hh | hh
      · rw [Prod.mk.injEq] at hh
        obtain ⟨rfl, rfl⟩ := hh
        apply mergeSwapOptions_disabled_persists
        rw [ho]
        simp [lookupId_setKey_self]
      · exact ih _ _ (List.Nodup.of_cons hnd) hh
  · intro id o c hmem hc
    induction plugins generalizing d p with
    | nil => simp at hmem
    | cons entry rest ih =>
      obtain ⟨i, oi⟩ := entry
      rw [mergeSwapOptions_cons]
      rcases List.mem_cons.mp hmem with hh | hh
      · rw [Prod.mk.injEq] at hh
        obtain ⟨rfl, rfl⟩ := hh
        have hout : id ∉ rest.map Prod.fst := by
          have h2 := hnd
          simp only [List.map_cons, List.nodup_cons] at h2
          exact h2.1
        rw [(mergeSwapOptions_frame rest _ _ id hout).2, hc,
          lookupId_setKey_self]
      · exact ih _ _ (List.Nodup.of_cons hnd) hh

theorem C2_amended_merge_options_witness :
    ([("x", (⟨true, some "C"⟩ : LegacyPluginOpts))].map Prod.fst).Nodup ∧
    lookupId
        (mergeSwapOptions [] [("x", "OLD"), ("y", "K")]
          [("x", ⟨true, some "C"⟩)]).2 "x" = some "C" := by
  refine ⟨by decide, ?_⟩
  exact (C2_amended_merge_options [] [("x", "OLD"), ("y", "K")]
    [("x", ⟨true, some "C"⟩)] (by decide)).2.2.1 "x" ⟨true, some "C"⟩ "C"
    (by decide) rfl

/-! ### Provider-selection lemmas -/

theorem count_activePluginIds (registryIds : List String)
    (s : PluginMap SwapSettings) (dis : PluginMap Bool) (id : String)
    (hnd : registryIds.Nodup) :
    (activePluginIds registryIds s dis).count id =
      if id ∈ registryIds ∧ effectiveEnabled s id = true ∧
          (lookupId dis id).getD false = false then 1 else 0 := by
  unfold activePluginIds
  by_cases hp : (effectiveEnabled s id && !((lookupId dis id).getD false)) = true
  · have hcf : List.count id
        (List.filter
          (fun i => effectiveEnabled s i && !((lookupId dis i).getD false))
          registryIds) = List.count id registryIds := List.count_filter hp
    rw [hcf]
    simp only [Bool.and_eq_true, Bool.not_eq_true'] at hp
    by_cases hm : id ∈ registryIds
    · rw [if_pos ⟨hm, hp.1, hp.2⟩, List.count_eq_one_of_mem hnd hm]
    · rw [if_neg (fun hc => hm hc.1), List.count_eq_zero.mpr hm]
  · have h0 : (registryIds.filter
        (fun i => effectiveEnabled s i && !((lookupId dis i).getD false))).count
          id = 0 :=
      List.count_eq_zero.mpr (fun hmem => hp (List.mem_filter.mp hmem).2)
    rw [h0, if_neg]
    rintro ⟨_, h1, h2⟩
    exact hp (by rw [h1, h2]; rfl)

/-- C6: when every configured provider is account-disabled or marked true
in the flat disabled map, the synchronous phase throws the
no-active-providers error (`new Error('No swap providers enabled')`) and
the set of started provider fetches is empty — no network call is made. -/
theorem C6_no_active_providers (registryIds : List String)
    (swapSettings : PluginMap SwapSettings) (disabled : PluginMap Bool)
    (h : ∀ id ∈ registryIds, effectiveEnabled swapSettings id = false ∨
      (lookupId disabled id).getD false = true) :
    startSwapFetches registryIds swapSettings disabled = .noProvidersError ∧
    activePluginIds registryIds swapSettings disabled = [] := by
  have hempty : activePluginIds registryIds swapSettings disabled = [] := by
    rw [activePluginIds, List.filter_eq_nil_iff]
    intro id hid
    rcases h id hid with h1 | h1 <;> simp [h1]
  refine ⟨?_, hempty⟩
  rw [startSwapFetches]
  simp [hempty]

theorem C6_no_active_providers_witness :
    (∀ id ∈ ["p1", "p2"],
      effectiveEnabled [("p1", ⟨some false⟩)] id = false ∨
      (lookupId [("p2", true)] id).getD false = true) ∧
    startSwapFetches ["p1", "p2"] [("p1", ⟨some false⟩)] [("p2", true)] =
      .noProvidersError := by
  refine ⟨by decide, ?_⟩
  exact (C6_no_active_providers ["p1", "p2"] [("p1", ⟨some false⟩)]
    [("p2", true)] (by decide)).1

/-- C7: with distinct registry keys (JS object keys are unique), exactly
one fetch task is started for a provider iff it is in the registry,
account-enabled (defaulting to enabled when the setting is absent) and not
truthy in the flat disabled map — so a disabled provider is never invoked
— and the started set is exactly the filtered provider set computed once
(or the call fails with the no-providers error when that set is empty). -/
theorem C7_one_fetch_per_active_provider (registryIds : List String)
    (swapSettings : PluginMap SwapSettings) (disabled : PluginMap Bool)
    (hnd : registryIds.Nodup) (id : String) :
    (activePluginIds registryIds swapSettings disabled).count id =
      (if id ∈ registryIds ∧ effectiveEnabled swapSettings id = true ∧
          (lookupId disabled id).getD false = false then 1 else 0) ∧
    (activePluginIds registryIds swapSettings disabled = [] ∧
        startSwapFetches registryIds swapSettings disabled =
          .noProvidersError ∨
      startSwapFetches registryIds swapSettings disabled =
        .started (activePluginIds registryIds swapSettings disabled)) := by
  refine ⟨count_activePluginIds registryIds swapSettings disabled id hnd, ?_⟩
  by_cases hact : activePluginIds registryIds swapSettings disabled = []
  · left
    rw [startSwapFetches]
    simp [hact]
  · right
    rw [startSwapFetches]
    rw [if_neg]
    intro hlen
    exact hact (List.length_eq_zero.mp (by omega))

theorem C7_one_fetch_per_active_provider_witness :
    (["p1", "p2"] : List String).Nodup ∧
    (activePluginIds ["p1", "p2"] [] [("p2", true)]).count "p2" =
      (if ("p2" : String) ∈ ["p1", "p2"] ∧
          effectiveEnabled [] "p2" = true ∧
          (lookupId [("p2", true)] "p2").getD false = false then 1 else 0) := by
  refine ⟨by decide, ?_⟩
  exact (C7_one_fetch_per_active_provider ["p1", "p2"] [] [("p2", true)]
    (by decide) "p2").1

/-! ### Success-branch lemmas -/

/-- The closing loop never throws: each `close()` rejection is swallowed
by the attached catch handler. -/
theorem closeLosers_ok (closeFails : SwapQuote → Bool) (l : List SwapQuote)
    (best : SwapQuote) : closeLosers closeFails l best = Except.ok () := by
  induction l with
  | nil => rfl
  | cons q rest ih =>
    rw [closeLosers]
    by_cases hq : q ≠ best
    · rw [if_pos hq]
      unfold jsClose
      by_cases hf : closeFails q = true <;> simp [hf, ih]
    · rw [if_neg hq]
      exact ih

/-- C9: on the success path the winner is one of the successful quotes,
`close()` is invoked on exactly the quotes other than the winner (never on
the winner), and the winner is returned whatever each `close()` does —
rejections are swallowed by `.catch(() => undefined)` and cannot prevent
the return. -/
theorem C9_losers_released (quotes : List SwapQuote) (pref : Option String)
    (promos : PluginMap String) (closeFails : SwapQuote → Bool)
    (hne : quotes ≠ []) :
    ∃ best, pickBestQuote quotes pref promos = some best ∧ best ∈ quotes ∧
      successBranch quotes pref promos closeFails = Except.ok best ∧
      best ∉ closedQuotes quotes best ∧
      (∀ q ∈ quotes, q ≠ best → q ∈ closedQuotes quotes best) ∧
      (∀ q ∈ closedQuotes quotes best, q ∈ quotes ∧ q ≠ best) := by
  obtain ⟨q, qs, rfl⟩ := List.exists_cons_of_ne_nil hne
  have hbest : pickBestQuote (q :: qs) pref promos =
      some (qs.foldl (pickPair pref promos) q) := rfl
  refine ⟨_, hbest, pickBestQuote_mem hbest, ?_, ?_, ?_, ?_⟩
  · rw [successBranch, hbest]
    simp [closeLosers_ok]
  · intro hmem
    have := (List.mem_filter.mp hmem).2
    simp at this
  · intro q2 hq2 hne2
    exact List.mem_filter.mpr ⟨hq2, by simp [hne2]⟩
  · intro q2 hq2
    obtain ⟨h1, h2⟩ := List.mem_filter.mp hq2
    exact ⟨h1, by simpa using h2⟩

theorem C9_losers_released_witness :
    ([(⟨"a", none, 2, 1, some false, none⟩ : SwapQuote),
      ⟨"b", none, 3, 1, some false, none⟩] : List SwapQuote) ≠ [] ∧
    ∃ best, pickBestQuote
        [(⟨"a", none, 2, 1, some false, none⟩ : SwapQuote),
          ⟨"b", none, 3, 1, some false, none⟩] none [] = some best ∧
      best ∈ [(⟨"a", none, 2, 1, some false, none⟩ : SwapQuote),
        ⟨"b", none, 3, 1, some false, none⟩] ∧
      successBranch
          [(⟨"a", none, 2, 1, some false, none⟩ : SwapQuote),
            ⟨"b", none, 3, 1, some false, none⟩] none []
          (fun _ => true) = Except.ok best ∧
      best ∉ closedQuotes
        [(⟨"a", none, 2, 1, some false, none⟩ : SwapQuote),
          ⟨"b", none, 3, 1, some false, none⟩] best ∧
      (∀ q ∈ [(⟨"a", none, 2, 1, some false, none⟩ : SwapQuote),
          ⟨"b", none, 3, 1, some false, none⟩], q ≠ best →
        q ∈ closedQuotes
          [(⟨"a", none, 2, 1, some false, none⟩ : SwapQuote),
            ⟨"b", none, 3, 1, some false, none⟩] best) ∧
      (∀ q ∈ closedQuotes
          [(⟨"a", none, 2, 1, some false, none⟩ : SwapQuote),
            ⟨"b", none, 3, 1, some false, none⟩] best,
        q ∈ [(⟨"a", none, 2, 1, some false, none⟩ : SwapQuote),
          ⟨"b", none, 3, 1, some false, none⟩] ∧ q ≠ best) := by
  refine ⟨by decide, ?_⟩
  exact C9_losers_released
    [⟨"a", none, 2, 1, some false, none⟩, ⟨"b", none, 3, 1, some false, none⟩]
    none [] (fun _ => true) (by decide)

/-- C10: the comparator keys preference and promo lookup on the legacy
`pluginName` only.  For a quote whose modern `pluginId` differs from its
`pluginName`, preferring that `pluginId` and keying a promo code by it
changes nothing — the comparison behaves exactly as with no preference and
no promo codes — even though `upgradeQuote` resolves the public provider
id from `pluginId`, falling back to `pluginName` only when `pluginId` is
absent. -/
theorem C10_comparator_keys_on_pluginName (a b : SwapQuote) (pid code : String)
    (infos : PluginMap SwapInfo) (info info2 : SwapInfo)
    (hid : a.pluginId = some pid) (hna : a.pluginName ≠ pid)
    (hnb : b.pluginName ≠ pid)
    (hinfo : lookupId infos pid = some info)
    (hbid : b.pluginId = none)
    (hbinfo : lookupId infos b.pluginName = some info2) :
    pickPair (some pid) [(pid, code)] a b = pickPair none [] a b ∧
    pickPair (some pid) [(pid, code)] b a = pickPair none [] b a ∧
    Option.map PublicQuote.pluginId (upgradeQuote a infos) = some pid ∧
    Option.map PublicQuote.pluginId (upgradeQuote b infos) =
      some b.pluginName := by
  refine ⟨?_, ?_, ?_, ?_⟩
  · unfold pickPair
    simp [lookupId, hna, hnb, Ne.symm hna, Ne.symm hnb]
  · unfold pickPair
    simp [lookupId, hna, hnb, Ne.symm hna, Ne.symm hnb]
  · unfold upgradeQuote
    rw [hid]
    simp [hinfo]
  · unfold upgradeQuote
    rw [hbid]
    simp [hbinfo]

theorem C10_comparator_keys_on_pluginName_witness :
    ((⟨"legacy", some "modern", 2, 1, some false, some "q"⟩ :
        SwapQuote).pluginId = some "modern") ∧
    pickPair (some "modern") [("modern", "C")]
        (⟨"legacy", some "modern", 2, 1, some false, some "q"⟩ : SwapQuote)
        ⟨"other", none, 3, 1, some false, none⟩ =
      pickPair none []
        (⟨"legacy", some "modern", 2, 1, some false, some "q"⟩ : SwapQuote)
        ⟨"other", none, 3, 1, some false, none⟩ ∧
    Option.map PublicQuote.pluginId
        (upgradeQuote
          (⟨"legacy", some "modern", 2, 1, some false, some "q"⟩ : SwapQuote)
          [("modern", ⟨some "u:"⟩), ("other", ⟨none⟩)]) = some "modern" := by
  refine ⟨by decide, ?_, ?_⟩
  · exact (C10_comparator_keys_on_pluginName
      ⟨"legacy", some "modern", 2, 1, some false, some "q"⟩
      ⟨"other", none, 3, 1, some false, none⟩ "modern" "C"
      [("modern", ⟨some "u:"⟩), ("other", ⟨none⟩)] ⟨some "u:"⟩ ⟨none⟩
      (by decide) (by decide) (by decide) (by decide) (by decide)
      (by decide)).1
  · exact (C10_comparator_keys_on_pluginName
      ⟨"legacy", some "modern", 2, 1, some false, some "q"⟩
      ⟨"other", none, 3, 1, some false, none⟩ "modern" "C"
      [("modern", ⟨some "u:"⟩), ("other", ⟨none⟩)] ⟨some "u:"⟩ ⟨none⟩
      (by decide) (by decide) (by decide) (by decide) (by decide)
      (by decide)).2.2.1

end SwapApi
